import Mathlib

/-!
Verification of the Rack audio engine core (src/engine/Engine.cpp) against its
natural-language specification.

Embedding conventions:
* C++ object pointers are modelled as natural numbers; a heap is a total
  function from pointers to object data, mutated with Function.update.
  Null pointers appear only where the source checks for them (cable endpoints),
  modelled with Option.
* float values are modelled with exact rationals.
* a function whose C++ original can fail an assert returns an Option;
  none means the assert fired and the process aborted.
* external collaborators that live outside src/ (Module::process, Port light
  processing, Cable::step voltage propagation) act only on state that is not
  part of this model (voltages, lights, wall-clock timing), per the spec's
  scope section; where a small collaborator is needed (Port::setChannels,
  ParamHandle::reset) it is modelled from the spec and marked as such.
-/

namespace Rack

structure Param where
  value : ℚ
deriving DecidableEq

structure Port where
  active : Bool
  channels : ℕ
deriving DecidableEq

/-- Modelled from the spec: Port::setChannels (engine/Port.hpp, outside src/) sets the
channel count of a port; the voltage zeroing it also performs acts on unmodelled
voltage state. -/
def Port.setChannels (p : Port) (c : ℕ) : Port :=
  { p with channels := c }

structure Expander where
  moduleId : ℤ
  module : Option ℕ
  producerMessage : ℕ
  consumerMessage : ℕ
  messageFlipRequested : Bool
deriving DecidableEq

structure ModuleData where
  id : ℤ
  params : List Param
  inputs : List Port
  outputs : List Port
  bypass : Bool
  cpuTime : ℚ
  leftExpander : Expander
  rightExpander : Expander
deriving DecidableEq

structure CableData where
  id : ℤ
  outputModule : Option ℕ
  outputId : ℕ
  inputModule : Option ℕ
  inputId : ℕ
deriving DecidableEq

structure ParamHandleData where
  moduleId : ℤ
  paramId : ℕ
  module : Option ℕ
deriving DecidableEq

/-- Modelled from the spec: ParamHandle::reset (engine/ParamHandle.hpp, outside src/)
clears the handle's target. -/
def ParamHandleData.reset (_h : ParamHandleData) : ParamHandleData :=
  { moduleId := -1, paramId := 0, module := none }

/-- The fields of Engine::Internal that the claims are about.  Concurrency-only
fields (mutexes, worker pool, workerModuleIndex, paused/running flags) are
outside the sequential model. -/
structure EngineState where
  modules : List ℕ
  cables : List ℕ
  paramHandles : List ℕ
  moduleHeap : ℕ → ModuleData
  cableHeap : ℕ → CableData
  phHeap : ℕ → ParamHandleData
  nextModuleId : ℤ
  nextCableId : ℤ
  sampleRate : ℚ
  sampleTime : ℚ
  smoothModule : Option ℕ
  smoothParamId : ℕ
  smoothValue : ℚ

/-- A C++ loop `for (p : l) p->field = f(p)` over a list of pointers, as a fold of
heap updates. -/
def updHeap {α : Type} (l : List ℕ) (f : ℕ → α → α) (h : ℕ → α) : ℕ → α :=
  l.foldl (fun h p => Function.update h p (f p (h p))) h

theorem updHeap_nil {α : Type} (f : ℕ → α → α) (h : ℕ → α) :
    updHeap [] f h = h := rfl

theorem updHeap_cons {α : Type} (p : ℕ) (l : List ℕ) (f : ℕ → α → α) (h : ℕ → α) :
    updHeap (p :: l) f h = updHeap l f (Function.update h p (f p (h p))) := rfl

theorem updHeap_eq_of_not_mem {α : Type} {l : List ℕ} {q : ℕ} (hq : q ∉ l)
    (f : ℕ → α → α) (h : ℕ → α) : updHeap l f h q = h q := by
  induction l generalizing h with
  | nil => rfl
  | cons p l ih =>
    rw [updHeap_cons, ih (fun hmem => hq (List.mem_cons_of_mem _ hmem))]
    exact Function.update_noteq (fun hpq => hq (by rw [hpq]; exact List.mem_cons_self p l)) _ h

theorem updHeap_eq_of_mem {α : Type} {l : List ℕ} {q : ℕ} (hl : l.Nodup) (hq : q ∈ l)
    (f : ℕ → α → α) (h : ℕ → α) : updHeap l f h q = f q (h q) := by
  induction l generalizing h with
  | nil => cases hq
  | cons p l ih =>
    rw [updHeap_cons]
    rcases List.mem_cons.mp hq with hqp | hql
    · subst hqp
      rw [updHeap_eq_of_not_mem (List.nodup_cons.mp hl).1]
      simp [Function.update_same]
    · have hpq : q ≠ p := fun hqp => (List.nodup_cons.mp hl).1 (hqp ▸ hql)
      rw [ih (List.nodup_cons.mp hl).2 hql]
      rw [Function.update_noteq hpq]

theorem updHeap_preserve {α β : Type} {l : List ℕ} (g : α → β) {f : ℕ → α → α}
    (hf : ∀ p x, g (f p x) = g x) (h : ℕ → α) (q : ℕ) :
    g (updHeap l f h q) = g (h q) := by
  induction l generalizing h with
  | nil => rfl
  | cons p l ih =>
    rw [updHeap_cons, ih]
    rcases eq_or_ne q p with hqp | hqp
    · subst hqp; rw [Function.update_same, hf]
    · rw [Function.update_noteq hqp]

/-! HybridBarrier (Engine.cpp lines 104-142). -/

structure BarrierState where
  count : ℤ
  total : ℤ
  yield : Bool
deriving DecidableEq

/-- Single-threaded execution of HybridBarrier::wait, with no other thread running.
Follows the source: increment count; if the new value equals total, reset count
to 0, clear yield, and return.  Otherwise the thread spins until count = 0 (or,
once yield is observed, waits on the condition variable for count = 0); with no
other thread to advance count this returns only if count is already 0, else it
blocks forever, which the model renders as none. -/
def HybridBarrier.wait1 (b : BarrierState) : Option BarrierState :=
  let id := b.count + 1
  if id = b.total then
    some { count := 0, total := b.total, yield := false }
  else if id = 0 then
    some { count := id, total := b.total, yield := b.yield }
  else
    none

/-! The step kernel (Engine_step, Engine.cpp lines 271-317). -/

/-- Engine::getParam (lines 662-664): module->params[paramId].value. -/
def getParam (s : EngineState) (mp : ℕ) (paramId : ℕ) : ℚ :=
  ((s.moduleHeap mp).params.getD paramId ⟨0⟩).value

/-- Writing module->params[i].value = v (Param has only a value field, so this is
also Param::setValue modelled from the spec, which lists only the value field). -/
def setParamAt (m : ModuleData) (i : ℕ) (v : ℚ) : ModuleData :=
  { m with params := m.params.set i ⟨v⟩ }

/-- The param-smoothing phase at the top of Engine_step (lines 274-293). -/
def stepSmooth (s : EngineState) : EngineState :=
  match s.smoothModule with
  | none => s
  | some mp =>
    let pid := s.smoothParamId
    let value := getParam s mp pid
    let smoothLambda : ℚ := 60
    let newValue := value + (s.smoothValue - value) * smoothLambda * s.sampleTime
    if value = newValue then
      -- Snap to the smooth value and clear the slot
      { s with moduleHeap := Function.update s.moduleHeap mp
                 (setParamAt (s.moduleHeap mp) pid s.smoothValue),
               smoothModule := none, smoothParamId := 0 }
    else
      { s with moduleHeap := Function.update s.moduleHeap mp
                 (setParamAt (s.moduleHeap mp) pid newValue) }

/-- One side of the message flip at the bottom of Engine_step (lines 307-316). -/
def flipExpander (e : Expander) : Expander :=
  if e.messageFlipRequested then
    { e with producerMessage := e.consumerMessage,
             consumerMessage := e.producerMessage,
             messageFlipRequested := false }
  else
    e

def flipModule (m : ModuleData) : ModuleData :=
  { m with leftExpander := flipExpander m.leftExpander,
           rightExpander := flipExpander m.rightExpander }

/-- The message-flip loop at the bottom of Engine_step (lines 306-316). -/
def stepFlip (s : EngineState) : EngineState :=
  { s with moduleHeap := updHeap s.modules (fun _ m => flipModule m) s.moduleHeap }

/-- Engine_step (lines 271-317).  The phases between smoothing and the message
flip — Engine_stepModules (Module::process, port-light processing, the optional
cpu-time EMA driven by wall-clock timing) and the cable loop (Cable::step
voltage propagation) — act only on collaborator state outside this model
(voltages, lights, timing), per the spec's scope; on the modelled state the
kernel's effects are the smoothing phase and the message-flip phase. -/
def Engine_step (s : EngineState) : EngineState :=
  stepFlip (stepSmooth s)

/-! The mutation API. -/

/-- The ParamHandle-binding loop at the end of Engine::addModule (lines 497-500). -/
def bindHandles (s : EngineState) (mp : ℕ) : EngineState :=
  let h := updHeap s.paramHandles
    (fun _ d => if d.moduleId = (s.moduleHeap mp).id then { d with module := some mp } else d)
    s.phHeap
  { s with phHeap := h }

/-- Engine::addModule (lines 470-501).  none = a precondition assert fired. -/
def addModule (s : EngineState) (mp : ℕ) : Option EngineState :=
  -- Check that the module is not already added
  if mp ∈ s.modules then none
  else
    let m := s.moduleHeap mp
    if m.id < 0 then
      -- Automatically assign ID
      let s1 : EngineState :=
        { s with moduleHeap := Function.update s.moduleHeap mp { m with id := s.nextModuleId },
                 nextModuleId := s.nextModuleId + 1,
                 modules := s.modules ++ [mp] }
      some (bindHandles s1 mp)
    else
      -- Manual ID: check that the ID is not already taken
      if ∃ p ∈ s.modules, (s.moduleHeap p).id = m.id then none
      else
        let s1 : EngineState :=
          { s with nextModuleId := if s.nextModuleId ≤ m.id then m.id + 1 else s.nextModuleId,
                   modules := s.modules ++ [mp] }
        some (bindHandles s1 mp)

/-- The expander-clearing body of the loop in Engine::removeModule (lines 525-534). -/
def clearExpandersTo (mp : ℕ) (m : ModuleData) : ModuleData :=
  let m1 := if m.leftExpander.module = some mp then
      { m with leftExpander := { m.leftExpander with moduleId := -1, module := none } }
    else m
  if m1.rightExpander.module = some mp then
    { m1 with rightExpander := { m1.rightExpander with moduleId := -1, module := none } }
  else m1

/-- Engine::removeModule (lines 503-539).  none = a precondition assert fired. -/
def removeModule (s : EngineState) (mp : ℕ) : Option EngineState :=
  -- Check that the module actually exists
  if mp ∈ s.modules then
    -- If a param is being smoothed on this module, stop smoothing it immediately
    let s1 := if s.smoothModule = some mp then { s with smoothModule := none } else s
    -- Check that all cables are disconnected
    if ∃ cp ∈ s1.cables, (s1.cableHeap cp).outputModule = some mp ∨
        (s1.cableHeap cp).inputModule = some mp then none
    else
      let mid := (s1.moduleHeap mp).id
      some { s1 with
        phHeap := updHeap s1.paramHandles
          (fun _ d => if d.moduleId = mid then { d with module := none } else d) s1.phHeap,
        moduleHeap := updHeap s1.modules (fun _ m => clearExpandersTo mp m) s1.moduleHeap,
        modules := s1.modules.erase mp }
  else none

/-- Engine::bypassModule (lines 568-586). -/
def bypassModule (s : EngineState) (mp : ℕ) (bypass : Bool) : EngineState :=
  let m := s.moduleHeap mp
  let m1 :=
    if bypass then
      -- setChannels 0 also zeros all voltages (unmodelled)
      { m with outputs := m.outputs.map (fun o => Port.setChannels o 0), cpuTime := 0 }
    else
      -- Set all outputs to 1 channel
      { m with outputs := m.outputs.map (fun o => Port.setChannels o 1) }
  { s with moduleHeap := Function.update s.moduleHeap mp { m1 with bypass := bypass } }

def setOutputActiveAt (m : ModuleData) (i : ℕ) : ModuleData :=
  { m with outputs := m.outputs.set i { m.outputs.getD i ⟨false, 0⟩ with active := true } }

def setInputActiveAt (m : ModuleData) (i : ℕ) : ModuleData :=
  { m with inputs := m.inputs.set i { m.inputs.getD i ⟨false, 0⟩ with active := true } }

/-- Engine_updateConnected (lines 588-603): clear every registered module's port
active flags, then mark both endpoints of every cable active.  The source
dereferences cable endpoints unconditionally; a null endpoint (impossible for a
registered cable) is skipped here. -/
def updateConnected (s : EngineState) : EngineState :=
  let mh1 := updHeap s.modules
    (fun _ m => { m with inputs := m.inputs.map (fun p => { p with active := false }),
                         outputs := m.outputs.map (fun p => { p with active := false }) })
    s.moduleHeap
  let mh2 := s.cables.foldl (fun h cp =>
    let c := s.cableHeap cp
    let h1 := match c.outputModule with
      | some p => Function.update h p (setOutputActiveAt (h p) c.outputId)
      | none => h
    match c.inputModule with
      | some p => Function.update h1 p (setInputActiveAt (h1 p) c.inputId)
      | none => h1) mh1
  { s with moduleHeap := mh2 }

/-- Engine::addCable (lines 605-635).  none = a precondition assert fired. -/
def addCable (s : EngineState) (cp : ℕ) : Option EngineState :=
  let c := s.cableHeap cp
  -- Check cable properties
  if c.outputModule = none ∨ c.inputModule = none then none
  -- Check that the cable is not already added, and that the input is not
  -- already used by another cable
  else if ∃ w ∈ s.cables, w = cp ∨ ((s.cableHeap w).inputModule = c.inputModule ∧
      (s.cableHeap w).inputId = c.inputId) then none
  else if c.id < 0 then
    -- Automatically assign ID
    let s1 : EngineState :=
      { s with cableHeap := Function.update s.cableHeap cp { c with id := s.nextCableId },
               nextCableId := s.nextCableId + 1,
               cables := s.cables ++ [cp] }
    some (updateConnected s1)
  else
    -- Manual ID: check that the ID is not already taken
    if ∃ w ∈ s.cables, (s.cableHeap w).id = c.id then none
    else
      let s1 : EngineState :=
        { s with nextCableId := if s.nextCableId ≤ c.id then c.id + 1 else s.nextCableId,
                 cables := s.cables ++ [cp] }
      some (updateConnected s1)

/-- Engine::setSmoothParam (lines 666-675). -/
def setSmoothParam (s : EngineState) (mp : ℕ) (paramId : ℕ) (value : ℚ) : EngineState :=
  -- If another param is being smoothed, jump value
  let s1 :=
    match s.smoothModule with
    | some m0 =>
      if m0 = mp ∧ s.smoothParamId = paramId then s
      else
        let mh := Function.update s.moduleHeap m0
          (setParamAt (s.moduleHeap m0) s.smoothParamId s.smoothValue)
        { s with moduleHeap := mh }
    | none => s
  -- smoothModule is set last in the source so the other fields are valid as
  -- soon as a concurrent reader sees it non-null; the sequential model keeps
  -- only the resulting state.
  { s1 with smoothParamId := paramId, smoothValue := value, smoothModule := some mp }

/-- Engine::getSmoothParam (lines 677-681). -/
def getSmoothParam (s : EngineState) (mp : ℕ) (paramId : ℕ) : ℚ :=
  if s.smoothModule = some mp ∧ s.smoothParamId = paramId then s.smoothValue
  else getParam s mp paramId

/-- Engine::addParamHandle (lines 683-694).  none = a precondition assert fired. -/
def addParamHandle (s : EngineState) (hp : ℕ) : Option EngineState :=
  -- Check that the ParamHandle is not already added
  if hp ∈ s.paramHandles then none
  -- New ParamHandles must be blank
  else if 0 ≤ (s.phHeap hp).moduleId then none
  else some { s with paramHandles := s.paramHandles ++ [hp] }

/-- The conflict-reset loop inside Engine::updateParamHandle (lines 730-738):
for every other handle targeting the same (moduleId, paramId), reset it when
overwrite is set, else reset the incoming handle. -/
def conflictPass (l : List ℕ) (h0 : ℕ → ParamHandleData) (hp : ℕ) (moduleId : ℤ)
    (paramId : ℕ) (overwrite : Bool) : ℕ → ParamHandleData :=
  l.foldl (fun h q =>
    if q ≠ hp ∧ (h q).moduleId = moduleId ∧ (h q).paramId = paramId then
      if overwrite then Function.update h q ((h q).reset)
      else Function.update h hp ((h hp).reset)
    else h) h0

/-- The three leading assignments of Engine::updateParamHandle (lines 723-725):
set the handle's ids and clear its cached module. -/
def uphH1 (s : EngineState) (hp : ℕ) (moduleId : ℤ) (paramId : ℕ) : ℕ → ParamHandleData :=
  Function.update s.phHeap hp
    { s.phHeap hp with moduleId := moduleId, paramId := paramId, module := none }

/-- The module-lookup loop at the end of Engine::updateParamHandle (lines
740-744): the last registered module whose id matches wins; acc is the
handle's current cached module (left as-is when nothing matches). -/
def rebindPass (modules : List ℕ) (mh : ℕ → ModuleData) (tid : ℤ) (acc : Option ℕ) :
    Option ℕ :=
  modules.foldl (fun acc q => if (mh q).id = tid then some q else acc) acc

/-- Engine::updateParamHandle (lines 718-746). -/
def updateParamHandle (s : EngineState) (hp : ℕ) (moduleId : ℤ) (paramId : ℕ)
    (overwrite : Bool) : EngineState :=
  -- Set IDs and clear the cached module
  let h1 := uphH1 s hp moduleId paramId
  if hp ∈ s.paramHandles ∧ 0 ≤ (h1 hp).moduleId then
    -- Remove existing ParamHandles pointing to the same param
    let h2 := conflictPass s.paramHandles h1 hp moduleId paramId overwrite
    -- Find module with same moduleId (last match wins, as in the source loop)
    let newMod := rebindPass s.modules s.moduleHeap ((h2 hp).moduleId) ((h2 hp).module)
    { s with phHeap := Function.update h2 hp { h2 hp with module := newMod } }
  else
    { s with phHeap := h1 }

/-! Invariants from the spec (section 3). -/

def moduleIds (s : EngineState) : List ℤ :=
  s.modules.map (fun p => (s.moduleHeap p).id)

/-- I1: every registered module has a unique id, and nextModuleId is strictly
greater than every registered module's id. -/
def I1 (s : EngineState) : Prop :=
  (moduleIds s).Nodup ∧ ∀ p ∈ s.modules, (s.moduleHeap p).id < s.nextModuleId

/-- I3: at most one cable targets any (inputModule, inputId) pair. -/
def I3 (s : EngineState) : Prop :=
  s.cables.Pairwise (fun p q =>
    ¬((s.cableHeap p).inputModule = (s.cableHeap q).inputModule ∧
      (s.cableHeap p).inputId = (s.cableHeap q).inputId))

/-! Small list lemmas used throughout. -/

theorem getD_set_self {α : Type} (l : List α) (i : ℕ) (x d : α) (h : i < l.length) :
    (l.set i x).getD i d = x := by
  induction l generalizing i with
  | nil => simp at h
  | cons a l ih =>
    cases i with
    | zero => rfl
    | succ n =>
      simp only [List.set, List.getD, List.getElem?_cons_succ]
      have := ih n (Nat.lt_of_succ_lt_succ h)
      simpa [List.getD] using this

theorem getD_set_ne {α : Type} (l : List α) (i j : ℕ) (x d : α) (h : i ≠ j) :
    (l.set i x).getD j d = l.getD j d := by
  induction l generalizing i j with
  | nil => rfl
  | cons a l ih =>
    cases i with
    | zero =>
      cases j with
      | zero => exact absurd rfl h
      | succ m => rfl
    | succ n =>
      cases j with
      | zero => rfl
      | succ m =>
        simp only [List.set, List.getD, List.getElem?_cons_succ]
        have := ih n m (fun hnm => h (by rw [hnm]))
        simpa [List.getD] using this

/-! Concrete sample data for the witness theorems. -/

def e0 : Expander := ⟨-1, none, 0, 0, false⟩

def mh0 : ℕ → ModuleData := fun _ => ⟨0, [], [], [], false, 0, e0, e0⟩

def ch0 : ℕ → CableData := fun _ => ⟨-1, none, 0, none, 0⟩

def ph0 : ℕ → ParamHandleData := fun _ => ⟨-1, 0, none⟩

def emptyEngine : EngineState :=
  { modules := [], cables := [], paramHandles := [],
    moduleHeap := mh0, cableHeap := ch0, phHeap := ph0,
    nextModuleId := 0, nextCableId := 0,
    sampleRate := 44100, sampleTime := 1 / 44100,
    smoothModule := none, smoothParamId := 0, smoothValue := 0 }

/-! Claim C6: HybridBarrier::wait for total ≤ 1. -/

/-- C6 counterexample: a HybridBarrier with total == 0 in its quiescent state
(count = 0, yield = false).  wait() does not terminate — the incremented count
(1) never equals total (0) and no other thread can reset count, so the spin
loop runs forever (rendered as none) — contradicting the claim that wait() is
a terminating no-op for total == 0. -/
theorem hybridBarrier_wait_total_zero_cex :
    HybridBarrier.wait1 ⟨0, 0, false⟩ = none := rfl

/-- C6 (amended): for total == 1, wait() called from the quiescent state
(count = 0) terminates immediately, leaving count = 0 and yield = false —
the observable state is unchanged whenever yield was false; for total == 0,
wait() does not terminate. -/
theorem hybridBarrier_wait_le_one (y : Bool) :
    HybridBarrier.wait1 ⟨0, 1, y⟩ = some ⟨0, 1, false⟩ ∧
    (y = false → HybridBarrier.wait1 ⟨0, 1, y⟩ = some ⟨0, 1, y⟩) ∧
    HybridBarrier.wait1 ⟨0, 0, y⟩ = none := by
  cases y with
  | false => exact ⟨rfl, fun _ => rfl, rfl⟩
  | true => exact ⟨rfl, fun h => Bool.noConfusion h, rfl⟩

/-- C6 witness: the amended theorem evaluated at yield = false. -/
theorem hybridBarrier_wait_le_one_witness :
    HybridBarrier.wait1 ⟨0, 1, false⟩ = some ⟨0, 1, false⟩ :=
  (hybridBarrier_wait_le_one false).2.1 rfl

/-! Claim C7: bypassModule round trip. -/

/-- C7: for a registered module, bypassModule(m, true) then bypassModule(m, false)
leaves m.bypass = false and every output with channel count 1; after
bypassModule(m, true) alone, every output has channel count 0 and cpuTime = 0. -/
theorem bypassModule_roundtrip (s : EngineState) (mp : ℕ) (hreg : mp ∈ s.modules) :
    let s1 := bypassModule s mp true
    let s2 := bypassModule s1 mp false
    ((s2.moduleHeap mp).bypass = false ∧
      ∀ o ∈ (s2.moduleHeap mp).outputs, o.channels = 1) ∧
    ((s1.moduleHeap mp).bypass = true ∧
      (∀ o ∈ (s1.moduleHeap mp).outputs, o.channels = 0) ∧
      (s1.moduleHeap mp).cpuTime = 0) := by
  have e1 : (bypassModule s mp true).moduleHeap mp =
      { s.moduleHeap mp with
        outputs := (s.moduleHeap mp).outputs.map (fun o => Port.setChannels o 0),
        cpuTime := 0, bypass := true } := by
    simp [bypassModule]
  have e2 : (bypassModule (bypassModule s mp true) mp false).moduleHeap mp =
      { (bypassModule s mp true).moduleHeap mp with
        outputs := ((bypassModule s mp true).moduleHeap mp).outputs.map
          (fun o => Port.setChannels o 1),
        bypass := false } := by
    simp [bypassModule]
  refine ⟨⟨by rw [e2], ?_⟩, by rw [e1], ?_, by rw [e1]⟩
  · intro o ho
    rw [e2] at ho
    simp only [List.mem_map] at ho
    obtain ⟨a, _, rfl⟩ := ho
    rfl
  · intro o ho
    rw [e1] at ho
    simp only [List.mem_map] at ho
    obtain ⟨a, _, rfl⟩ := ho
    rfl

/-- C7 witness state: one registered module with two outputs. -/
def bypassState : EngineState :=
  { emptyEngine with
    modules := [1],
    moduleHeap := Function.update mh0 1 ⟨3, [⟨0⟩], [⟨false, 1⟩], [⟨false, 1⟩, ⟨true, 2⟩], false, 5, e0, e0⟩,
    nextModuleId := 4 }

/-- C7 witness: the round trip evaluated on a concrete engine state. -/
theorem bypassModule_roundtrip_witness :
    let s1 := bypassModule bypassState 1 true
    let s2 := bypassModule s1 1 false
    ((s2.moduleHeap 1).bypass = false ∧
      ∀ o ∈ (s2.moduleHeap 1).outputs, o.channels = 1) ∧
    ((s1.moduleHeap 1).bypass = true ∧
      (∀ o ∈ (s1.moduleHeap 1).outputs, o.channels = 0) ∧
      (s1.moduleHeap 1).cpuTime = 0) :=
  bypassModule_roundtrip bypassState 1 (by decide)

/-! Claim C9: addParamHandle preconditions and effect. -/

/-- C9: addParamHandle(h) fails its asserts exactly when h is already in the
handle set or h.moduleId ≥ 0 (h not blank); under the negated preconditions its
only effect is appending h to the handle set — in particular no heap field
(and hence no cached module reference) changes. -/
theorem addParamHandle_spec (s : EngineState) (hp : ℕ) :
    (addParamHandle s hp = none ↔ hp ∈ s.paramHandles ∨ 0 ≤ (s.phHeap hp).moduleId) ∧
    (hp ∉ s.paramHandles → (s.phHeap hp).moduleId < 0 →
      addParamHandle s hp = some { s with paramHandles := s.paramHandles ++ [hp] }) := by
  constructor
  · unfold addParamHandle
    split_ifs with h1 h2
    · simp [h1]
    · simp [h1, h2]
    · simp [h1, h2]
  · intro h1 h2
    unfold addParamHandle
    rw [if_neg h1, if_neg (not_le.mpr h2)]

/-- C9 witness state: one blank handle at pointer 10, an occupied slot at 11. -/
def phState : EngineState :=
  { emptyEngine with
    paramHandles := [11],
    phHeap := Function.update ph0 11 ⟨2, 0, none⟩ }

/-- C9 witness: the characterization evaluated on a concrete engine state. -/
theorem addParamHandle_spec_witness :
    (addParamHandle phState 10 = none ↔
      (10 : ℕ) ∈ phState.paramHandles ∨ 0 ≤ (phState.phHeap 10).moduleId) ∧
    addParamHandle phState 10 =
      some { phState with paramHandles := phState.paramHandles ++ [10] } :=
  ⟨(addParamHandle_spec phState 10).1,
   (addParamHandle_spec phState 10).2 (by decide) (by decide)⟩

/-! Claim C4: setSmoothParam / getSmoothParam. -/

/-- C4: after setSmoothParam(m, p, v) the smoothing slot is (m, p, v), any
previously smoothing different parameter has first been snapped to its old
target smoothValue, getSmoothParam(m, p) returns v, and getSmoothParam on any
other pair returns the parameter's live value.  (The source assigns
smoothModule last for the benefit of concurrent readers; the sequential model
records the resulting state.) -/
theorem setSmoothParam_spec (s : EngineState) (mp : ℕ) (pid : ℕ) (v : ℚ) :
    let s' := setSmoothParam s mp pid v
    s'.smoothModule = some mp ∧ s'.smoothParamId = pid ∧ s'.smoothValue = v ∧
    getSmoothParam s' mp pid = v ∧
    (∀ q i, ¬(q = mp ∧ i = pid) → getSmoothParam s' q i = getParam s' q i) ∧
    (∀ m0, s.smoothModule = some m0 → ¬(m0 = mp ∧ s.smoothParamId = pid) →
      s.smoothParamId < (s.moduleHeap m0).params.length →
      getParam s' m0 s.smoothParamId = s.smoothValue) := by
  refine ⟨rfl, rfl, rfl, ?_, ?_, ?_⟩
  · unfold getSmoothParam
    rw [if_pos ⟨rfl, rfl⟩]
    rfl
  · intro q i hqi
    have hcond : ¬((setSmoothParam s mp pid v).smoothModule = some q ∧
        (setSmoothParam s mp pid v).smoothParamId = i) := by
      intro ⟨hq, hi⟩
      exact hqi ⟨(Option.some_inj.mp hq).symm, hi.symm⟩
    unfold getSmoothParam
    rw [if_neg hcond]
  · intro m0 hm0 hne hlen
    unfold getParam setSmoothParam
    rw [hm0]
    simp only [if_neg hne, Function.update_same, setParamAt]
    rw [getD_set_self _ _ _ _ hlen]

/-! Step-kernel phase lemmas. -/

theorem stepSmooth_none (s : EngineState) (h : s.smoothModule = none) :
    stepSmooth s = s := by
  unfold stepSmooth
  rw [h]

/-- Characterization of the snap branch of the smoothing phase. -/
theorem stepSmooth_snap (s : EngineState) (mp : ℕ) (h : s.smoothModule = some mp)
    (heq : getParam s mp s.smoothParamId =
      getParam s mp s.smoothParamId +
        (s.smoothValue - getParam s mp s.smoothParamId) * 60 * s.sampleTime) :
    stepSmooth s =
      { s with moduleHeap := Function.update s.moduleHeap mp
                 (setParamAt (s.moduleHeap mp) s.smoothParamId s.smoothValue),
               smoothModule := none, smoothParamId := 0 } := by
  unfold stepSmooth
  rw [h]
  dsimp only
  rw [if_pos heq]

/-- Characterization of the decay branch of the smoothing phase. -/
theorem stepSmooth_decay (s : EngineState) (mp : ℕ) (h : s.smoothModule = some mp)
    (hne : ¬(getParam s mp s.smoothParamId =
      getParam s mp s.smoothParamId +
        (s.smoothValue - getParam s mp s.smoothParamId) * 60 * s.sampleTime)) :
    stepSmooth s =
      { s with moduleHeap := Function.update s.moduleHeap mp
                 (setParamAt (s.moduleHeap mp) s.smoothParamId
                   (getParam s mp s.smoothParamId +
                     (s.smoothValue - getParam s mp s.smoothParamId) * 60 * s.sampleTime)) } := by
  unfold stepSmooth
  rw [h]
  dsimp only
  rw [if_neg hne]

theorem stepSmooth_modules (s : EngineState) : (stepSmooth s).modules = s.modules := by
  cases hsm : s.smoothModule with
  | none => rw [stepSmooth_none s hsm]
  | some mp =>
    by_cases heq : getParam s mp s.smoothParamId =
        getParam s mp s.smoothParamId +
          (s.smoothValue - getParam s mp s.smoothParamId) * 60 * s.sampleTime
    · rw [stepSmooth_snap s mp hsm heq]
    · rw [stepSmooth_decay s mp hsm heq]

theorem stepSmooth_expanders (s : EngineState) (q : ℕ) :
    ((stepSmooth s).moduleHeap q).leftExpander = (s.moduleHeap q).leftExpander ∧
    ((stepSmooth s).moduleHeap q).rightExpander = (s.moduleHeap q).rightExpander := by
  cases hsm : s.smoothModule with
  | none => rw [stepSmooth_none s hsm]; exact ⟨rfl, rfl⟩
  | some mp =>
    by_cases heq : getParam s mp s.smoothParamId =
        getParam s mp s.smoothParamId +
          (s.smoothValue - getParam s mp s.smoothParamId) * 60 * s.sampleTime
    · rw [stepSmooth_snap s mp hsm heq]
      rcases eq_or_ne q mp with h | h
      · subst h
        simp [Function.update_same, setParamAt]
      · simp [Function.update_noteq h]
    · rw [stepSmooth_decay s mp hsm heq]
      rcases eq_or_ne q mp with h | h
      · subst h
        simp [Function.update_same, setParamAt]
      · simp [Function.update_noteq h]

theorem stepFlip_params (s : EngineState) (q : ℕ) :
    ((stepFlip s).moduleHeap q).params = (s.moduleHeap q).params := by
  show (updHeap s.modules (fun _ m => flipModule m) s.moduleHeap q).params =
    (s.moduleHeap q).params
  exact updHeap_preserve (f := fun _ m => flipModule m)
    (fun (m : ModuleData) => m.params) (fun _ _ => rfl) s.moduleHeap q

theorem getParam_stepFlip (s : EngineState) (q i : ℕ) :
    getParam (stepFlip s) q i = getParam s q i := by
  unfold getParam
  rw [stepFlip_params]

/-! Claim C1: the smoothing phase of the step kernel. -/

/-- C1: when the smoothing slot holds (m, pid, t), one Engine_step updates that
parameter from v to v' = v + (t - v) * 60 * sampleTime; if v' equals v in the
model's (exact) arithmetic — the quantization branch of the source — it instead
writes t exactly and clears the slot; and no other parameter value is mutated
by the step kernel. -/
theorem engine_step_smoothing (s : EngineState) (mp : ℕ)
    (hsm : s.smoothModule = some mp)
    (hlen : s.smoothParamId < (s.moduleHeap mp).params.length) :
    let pid := s.smoothParamId
    let v := getParam s mp pid
    let v' := v + (s.smoothValue - v) * 60 * s.sampleTime
    let s' := Engine_step s
    (v = v' → getParam s' mp pid = s.smoothValue ∧ s'.smoothModule = none) ∧
    (v ≠ v' → getParam s' mp pid = v' ∧ s'.smoothModule = some mp ∧
      s'.smoothParamId = pid ∧ s'.smoothValue = s.smoothValue) ∧
    (∀ q i, ¬(q = mp ∧ i = pid) → getParam s' q i = getParam s q i) := by
  intro pid v v' s'
  have hstep : ∀ q i, getParam s' q i = getParam (stepSmooth s) q i := fun q i =>
    getParam_stepFlip (stepSmooth s) q i
  have hslot : s'.smoothModule = (stepSmooth s).smoothModule := rfl
  have hslotP : s'.smoothParamId = (stepSmooth s).smoothParamId := rfl
  have hslotV : s'.smoothValue = (stepSmooth s).smoothValue := rfl
  refine ⟨?_, ?_, ?_⟩
  · intro heq
    rw [hstep, hslot, stepSmooth_snap s mp hsm heq]
    constructor
    · unfold getParam
      simp only [Function.update_same, setParamAt]
      rw [getD_set_self _ _ _ _ hlen]
    · rfl
  · intro hne
    rw [hstep, hslot, hslotP, hslotV, stepSmooth_decay s mp hsm hne]
    refine ⟨?_, hsm, rfl, rfl⟩
    unfold getParam
    simp only [Function.update_same, setParamAt]
    rw [getD_set_self _ _ _ _ hlen]
    rfl
  · intro q i hqi
    rw [hstep]
    by_cases heq : getParam s mp s.smoothParamId =
        getParam s mp s.smoothParamId +
          (s.smoothValue - getParam s mp s.smoothParamId) * 60 * s.sampleTime
    · rw [stepSmooth_snap s mp hsm heq]
      rcases eq_or_ne q mp with hq | hq
      · subst hq
        have hi : i ≠ pid := fun h => hqi ⟨rfl, h⟩
        unfold getParam
        simp only [Function.update_same, setParamAt]
        rw [getD_set_ne _ _ _ _ _ (fun h => hi h.symm)]
      · unfold getParam
        dsimp only
        rw [Function.update_noteq hq]
    · rw [stepSmooth_decay s mp hsm heq]
      rcases eq_or_ne q mp with hq | hq
      · subst hq
        have hi : i ≠ pid := fun h => hqi ⟨rfl, h⟩
        unfold getParam
        simp only [Function.update_same, setParamAt]
        rw [getD_set_ne _ _ _ _ _ (fun h => hi h.symm)]
      · unfold getParam
        dsimp only
        rw [Function.update_noteq hq]

/-- C1 witness state: module 1 has two params; param 1 is being smoothed
towards 5. -/
def smoothState : EngineState :=
  { emptyEngine with
    modules := [1],
    moduleHeap := Function.update mh0 1 ⟨0, [⟨1/2⟩, ⟨2⟩], [], [], false, 0, e0, e0⟩,
    nextModuleId := 1,
    smoothModule := some 1, smoothParamId := 1, smoothValue := 5 }

/-- C1 witness: the smoothing characterization evaluated on a concrete state. -/
theorem engine_step_smoothing_witness :
    let pid := smoothState.smoothParamId
    let v := getParam smoothState 1 pid
    let v' := v + (smoothState.smoothValue - v) * 60 * smoothState.sampleTime
    let s' := Engine_step smoothState
    (v = v' → getParam s' 1 pid = smoothState.smoothValue ∧ s'.smoothModule = none) ∧
    (v ≠ v' → getParam s' 1 pid = v' ∧ s'.smoothModule = some 1 ∧
      s'.smoothParamId = pid ∧ s'.smoothValue = smoothState.smoothValue) ∧
    (∀ q i, ¬(q = 1 ∧ i = pid) → getParam s' q i = getParam smoothState q i) :=
  engine_step_smoothing smoothState 1 (by decide) (by decide)

/-! Claim C8: the expander message flip at the end of the step. -/

/-- C8: at the end of a step, for each registered module and each of its two
expanders: if messageFlipRequested was set, the producer and consumer message
buffers are swapped and the flag is cleared; otherwise that expander is left
unchanged by the step.  (A module's own process callback is external code and
outside the kernel model.) -/
theorem engine_step_flip (s : EngineState) (p : ℕ)
    (hnd : s.modules.Nodup) (hp : p ∈ s.modules) :
    let e := (s.moduleHeap p).leftExpander
    let r := (s.moduleHeap p).rightExpander
    let s' := Engine_step s
    (e.messageFlipRequested = true →
      (s'.moduleHeap p).leftExpander =
        ⟨e.moduleId, e.module, e.consumerMessage, e.producerMessage, false⟩) ∧
    (e.messageFlipRequested = false → (s'.moduleHeap p).leftExpander = e) ∧
    (r.messageFlipRequested = true →
      (s'.moduleHeap p).rightExpander =
        ⟨r.moduleId, r.module, r.consumerMessage, r.producerMessage, false⟩) ∧
    (r.messageFlipRequested = false → (s'.moduleHeap p).rightExpander = r) := by
  intro e r s'
  have hkey : s'.moduleHeap p = flipModule ((stepSmooth s).moduleHeap p) := by
    show updHeap (stepSmooth s).modules (fun _ m => flipModule m)
      (stepSmooth s).moduleHeap p = _
    rw [stepSmooth_modules]
    exact updHeap_eq_of_mem hnd hp _ _
  have hl : ((stepSmooth s).moduleHeap p).leftExpander = e := (stepSmooth_expanders s p).1
  have hr : ((stepSmooth s).moduleHeap p).rightExpander = r := (stepSmooth_expanders s p).2
  refine ⟨?_, ?_, ?_, ?_⟩ <;> intro hflag
  · rw [hkey]
    show flipExpander ((stepSmooth s).moduleHeap p).leftExpander = _
    rw [hl]
    unfold flipExpander
    rw [if_pos hflag]
  · rw [hkey]
    show flipExpander ((stepSmooth s).moduleHeap p).leftExpander = _
    rw [hl]
    unfold flipExpander
    rw [if_neg (by rw [hflag]; exact Bool.false_ne_true)]
  · rw [hkey]
    show flipExpander ((stepSmooth s).moduleHeap p).rightExpander = _
    rw [hr]
    unfold flipExpander
    rw [if_pos hflag]
  · rw [hkey]
    show flipExpander ((stepSmooth s).moduleHeap p).rightExpander = _
    rw [hr]
    unfold flipExpander
    rw [if_neg (by rw [hflag]; exact Bool.false_ne_true)]

/-- C8 witness state: module 1 has a flip requested on its left expander only. -/
def flipState : EngineState :=
  { emptyEngine with
    modules := [1, 2],
    moduleHeap := Function.update
      (Function.update mh0 1
        ⟨0, [], [], [], false, 0, ⟨1, some 2, 10, 20, true⟩, ⟨-1, none, 30, 40, false⟩⟩)
      2 ⟨1, [], [], [], false, 0, e0, ⟨0, some 1, 50, 60, true⟩⟩,
    nextModuleId := 2 }

/-- C8 witness: the flip characterization evaluated on a concrete state. -/
theorem engine_step_flip_witness :
    let e := (flipState.moduleHeap 1).leftExpander
    let r := (flipState.moduleHeap 1).rightExpander
    let s' := Engine_step flipState
    (e.messageFlipRequested = true →
      (s'.moduleHeap 1).leftExpander =
        ⟨e.moduleId, e.module, e.consumerMessage, e.producerMessage, false⟩) ∧
    (e.messageFlipRequested = false → (s'.moduleHeap 1).leftExpander = e) ∧
    (r.messageFlipRequested = true →
      (s'.moduleHeap 1).rightExpander =
        ⟨r.moduleId, r.module, r.consumerMessage, r.producerMessage, false⟩) ∧
    (r.messageFlipRequested = false → (s'.moduleHeap 1).rightExpander = r) :=
  engine_step_flip flipState 1 (by decide) (by decide)

/-! Claim C2: removeModule leaves no references to the removed module. -/

theorem clearExpandersTo_spec (mp : ℕ) (m : ModuleData) :
    (clearExpandersTo mp m).leftExpander.module ≠ some mp ∧
    (clearExpandersTo mp m).rightExpander.module ≠ some mp ∧
    (m.leftExpander.module = some mp →
      (clearExpandersTo mp m).leftExpander.moduleId = -1 ∧
      (clearExpandersTo mp m).leftExpander.module = none) ∧
    (m.rightExpander.module = some mp →
      (clearExpandersTo mp m).rightExpander.moduleId = -1 ∧
      (clearExpandersTo mp m).rightExpander.module = none) ∧
    (clearExpandersTo mp m).id = m.id := by
  unfold clearExpandersTo
  by_cases hL : m.leftExpander.module = some mp <;>
    by_cases hR : m.rightExpander.module = some mp <;>
      simp [hL, hR]

/-- Characterization of the successful branch of removeModule. -/
theorem removeModule_eq (s : EngineState) (mp : ℕ) (hreg : mp ∈ s.modules)
    (hnc : ¬∃ cp ∈ s.cables, (s.cableHeap cp).outputModule = some mp ∨
      (s.cableHeap cp).inputModule = some mp) :
    removeModule s mp = some
      { s with
        smoothModule := if s.smoothModule = some mp then none else s.smoothModule,
        phHeap := updHeap s.paramHandles
          (fun _ d => if d.moduleId = (s.moduleHeap mp).id then { d with module := none }
            else d) s.phHeap,
        moduleHeap := updHeap s.modules (fun _ m => clearExpandersTo mp m) s.moduleHeap,
        modules := s.modules.erase mp } := by
  unfold removeModule
  rw [if_pos hreg]
  by_cases hsm : s.smoothModule = some mp
  · rw [if_pos hsm, if_pos hsm]
    dsimp only
    rw [if_neg hnc]
  · rw [if_neg hsm, if_neg hsm]
    dsimp only
    rw [if_neg hnc]

/-- C2: after removeModule(m) returns, on a state where m is registered and no
cable references m (with duplicate-free registration lists and handles whose
cached references are consistent with their moduleId, spec invariant I5), no
remaining cable, expander, or param-handle holds a reference to m and
smoothModule ≠ m; every other registered module whose expander pointed at m
has that expander's moduleId set to -1 and its cached reference cleared; and
every param-handle with moduleId == m.id has its cached reference cleared. -/
theorem removeModule_spec (s : EngineState) (mp : ℕ)
    (hreg : mp ∈ s.modules)
    (hndM : s.modules.Nodup) (hndP : s.paramHandles.Nodup)
    (hcab : ∀ cp ∈ s.cables, (s.cableHeap cp).outputModule ≠ some mp ∧
      (s.cableHeap cp).inputModule ≠ some mp)
    (hI5 : ∀ q ∈ s.paramHandles, (s.phHeap q).module = some mp →
      (s.phHeap q).moduleId = (s.moduleHeap mp).id) :
    ∃ s', removeModule s mp = some s' ∧
      (∀ cp ∈ s'.cables, (s'.cableHeap cp).outputModule ≠ some mp ∧
        (s'.cableHeap cp).inputModule ≠ some mp) ∧
      (∀ p ∈ s'.modules, (s'.moduleHeap p).leftExpander.module ≠ some mp ∧
        (s'.moduleHeap p).rightExpander.module ≠ some mp) ∧
      (∀ q ∈ s'.paramHandles, (s'.phHeap q).module ≠ some mp) ∧
      s'.smoothModule ≠ some mp ∧
      (∀ p ∈ s.modules, p ≠ mp →
        ((s.moduleHeap p).leftExpander.module = some mp →
          (s'.moduleHeap p).leftExpander.moduleId = -1 ∧
          (s'.moduleHeap p).leftExpander.module = none) ∧
        ((s.moduleHeap p).rightExpander.module = some mp →
          (s'.moduleHeap p).rightExpander.moduleId = -1 ∧
          (s'.moduleHeap p).rightExpander.module = none)) ∧
      (∀ q ∈ s.paramHandles, (s.phHeap q).moduleId = (s.moduleHeap mp).id →
        (s'.phHeap q).module = none) := by
  have hnc : ¬∃ cp ∈ s.cables, (s.cableHeap cp).outputModule = some mp ∨
      (s.cableHeap cp).inputModule = some mp := by
    rintro ⟨cp, hcp, hor⟩
    rcases hor with h | h
    · exact (hcab cp hcp).1 h
    · exact (hcab cp hcp).2 h
  refine ⟨_, removeModule_eq s mp hreg hnc, ?_, ?_, ?_, ?_, ?_, ?_⟩
  · exact hcab
  · intro p hp
    have hp' : p ∈ s.modules := List.mem_of_mem_erase hp
    have key : updHeap s.modules (fun _ m => clearExpandersTo mp m) s.moduleHeap p =
        clearExpandersTo mp (s.moduleHeap p) := updHeap_eq_of_mem hndM hp' _ _
    constructor
    · show ((updHeap s.modules (fun _ m => clearExpandersTo mp m) s.moduleHeap p).leftExpander).module ≠ some mp
      rw [key]
      exact (clearExpandersTo_spec mp (s.moduleHeap p)).1
    · show ((updHeap s.modules (fun _ m => clearExpandersTo mp m) s.moduleHeap p).rightExpander).module ≠ some mp
      rw [key]
      exact (clearExpandersTo_spec mp (s.moduleHeap p)).2.1
  · intro q hq
    show (updHeap s.paramHandles
      (fun _ d => if d.moduleId = (s.moduleHeap mp).id then { d with module := none }
        else d) s.phHeap q).module ≠ some mp
    rw [updHeap_eq_of_mem hndP hq]
    by_cases hid : (s.phHeap q).moduleId = (s.moduleHeap mp).id
    · rw [if_pos hid]
      exact fun h => Option.noConfusion h
    · rw [if_neg hid]
      exact fun h => hid (hI5 q hq h)
  · show (if s.smoothModule = some mp then none else s.smoothModule) ≠ some mp
    by_cases hsm : s.smoothModule = some mp
    · rw [if_pos hsm]
      exact fun h => Option.noConfusion h
    · rw [if_neg hsm]
      exact hsm
  · intro p hp _
    have key : (updHeap s.modules (fun _ m => clearExpandersTo mp m) s.moduleHeap p) =
        clearExpandersTo mp (s.moduleHeap p) := updHeap_eq_of_mem hndM hp _ _
    constructor
    · intro hL
      constructor
      · show ((updHeap s.modules (fun _ m => clearExpandersTo mp m) s.moduleHeap p).leftExpander).moduleId = -1
        rw [key]
        exact ((clearExpandersTo_spec mp (s.moduleHeap p)).2.2.1 hL).1
      · show ((updHeap s.modules (fun _ m => clearExpandersTo mp m) s.moduleHeap p).leftExpander).module = none
        rw [key]
        exact ((clearExpandersTo_spec mp (s.moduleHeap p)).2.2.1 hL).2
    · intro hR
      constructor
      · show ((updHeap s.modules (fun _ m => clearExpandersTo mp m) s.moduleHeap p).rightExpander).moduleId = -1
        rw [key]
        exact ((clearExpandersTo_spec mp (s.moduleHeap p)).2.2.2.1 hR).1
      · show ((updHeap s.modules (fun _ m => clearExpandersTo mp m) s.moduleHeap p).rightExpander).module = none
        rw [key]
        exact ((clearExpandersTo_spec mp (s.moduleHeap p)).2.2.2.1 hR).2
  · intro q hq hid
    show (updHeap s.paramHandles
      (fun _ d => if d.moduleId = (s.moduleHeap mp).id then { d with module := none }
        else d) s.phHeap q).module = none
    rw [updHeap_eq_of_mem hndP hq, if_pos hid]

/-- C2 witness state: module 1 (id 5) is referenced by module 2's left expander
and by param-handle 10; module 1's param is being smoothed. -/
def removeState : EngineState :=
  { emptyEngine with
    modules := [1, 2],
    moduleHeap := Function.update
      (Function.update mh0 1 ⟨5, [⟨0⟩], [], [], false, 0, e0, e0⟩)
      2 ⟨6, [], [], [], false, 0, ⟨5, some 1, 0, 0, false⟩, e0⟩,
    paramHandles := [10],
    phHeap := Function.update ph0 10 ⟨5, 0, some 1⟩,
    nextModuleId := 7,
    smoothModule := some 1, smoothParamId := 0, smoothValue := 1 }

/-- C2 witness: removeModule evaluated on a concrete state. -/
theorem removeModule_spec_witness :
    ∃ s', removeModule removeState 1 = some s' ∧
      (∀ cp ∈ s'.cables, (s'.cableHeap cp).outputModule ≠ some 1 ∧
        (s'.cableHeap cp).inputModule ≠ some 1) ∧
      (∀ p ∈ s'.modules, (s'.moduleHeap p).leftExpander.module ≠ some 1 ∧
        (s'.moduleHeap p).rightExpander.module ≠ some 1) ∧
      (∀ q ∈ s'.paramHandles, (s'.phHeap q).module ≠ some 1) ∧
      s'.smoothModule ≠ some 1 ∧
      (∀ p ∈ removeState.modules, p ≠ 1 →
        ((removeState.moduleHeap p).leftExpander.module = some 1 →
          (s'.moduleHeap p).leftExpander.moduleId = -1 ∧
          (s'.moduleHeap p).leftExpander.module = none) ∧
        ((removeState.moduleHeap p).rightExpander.module = some 1 →
          (s'.moduleHeap p).rightExpander.moduleId = -1 ∧
          (s'.moduleHeap p).rightExpander.module = none)) ∧
      (∀ q ∈ removeState.paramHandles,
        (removeState.phHeap q).moduleId = (removeState.moduleHeap 1).id →
        (s'.phHeap q).module = none) :=
  removeModule_spec removeState 1 (by decide) (by decide) (by decide)
    (by intro cp hcp; cases hcp) (by decide)

/-! Claim C3: addModule and removeModule preserve invariant I1. -/

/-- Characterization of the automatic-ID branch of addModule. -/
theorem addModule_auto (s : EngineState) (mp : ℕ) (hmem : mp ∉ s.modules)
    (hid : (s.moduleHeap mp).id < 0) :
    addModule s mp = some (bindHandles
      { s with moduleHeap := Function.update s.moduleHeap mp
                 { s.moduleHeap mp with id := s.nextModuleId },
               nextModuleId := s.nextModuleId + 1,
               modules := s.modules ++ [mp] } mp) := by
  unfold addModule
  rw [if_neg hmem]
  dsimp only
  rw [if_pos hid]

/-- Characterization of the manual-ID branch of addModule. -/
theorem addModule_manual (s : EngineState) (mp : ℕ) (hmem : mp ∉ s.modules)
    (hid : ¬(s.moduleHeap mp).id < 0)
    (hcol : ¬∃ p ∈ s.modules, (s.moduleHeap p).id = (s.moduleHeap mp).id) :
    addModule s mp = some (bindHandles
      { s with nextModuleId := if s.nextModuleId ≤ (s.moduleHeap mp).id
                 then (s.moduleHeap mp).id + 1 else s.nextModuleId,
               modules := s.modules ++ [mp] } mp) := by
  unfold addModule
  rw [if_neg hmem]
  dsimp only
  rw [if_neg hid, if_neg hcol]

/-- C3: invariant I1 (pairwise-distinct module ids, nextModuleId strictly above
all of them) is preserved by addModule under its preconditions — assigning
nextModuleId (then incrementing it) when m.id < 0, and bumping nextModuleId to
max(nextModuleId, m.id + 1) when m.id ≥ 0 — and preserved by removeModule. -/
theorem addModule_removeModule_I1 :
    (∀ (s : EngineState) (mp : ℕ), I1 s → mp ∉ s.modules →
      (0 ≤ (s.moduleHeap mp).id →
        ∀ p ∈ s.modules, (s.moduleHeap p).id ≠ (s.moduleHeap mp).id) →
      ∃ s', addModule s mp = some s' ∧ I1 s' ∧
        ((s.moduleHeap mp).id < 0 →
          (s'.moduleHeap mp).id = s.nextModuleId ∧
          s'.nextModuleId = s.nextModuleId + 1) ∧
        (0 ≤ (s.moduleHeap mp).id →
          s'.nextModuleId = max s.nextModuleId ((s.moduleHeap mp).id + 1))) ∧
    (∀ (s : EngineState) (mp : ℕ) (s' : EngineState), I1 s →
      removeModule s mp = some s' → I1 s') := by
  constructor
  · intro s mp hI1 hmem hcol
    by_cases hid : (s.moduleHeap mp).id < 0
    · refine ⟨_, addModule_auto s mp hmem hid, ?_, ?_, ?_⟩
      · constructor
        · show ((s.modules ++ [mp]).map (fun p =>
            (Function.update s.moduleHeap mp
              { s.moduleHeap mp with id := s.nextModuleId } p).id)).Nodup
          rw [List.map_append]
          have h1 : s.modules.map (fun p =>
              (Function.update s.moduleHeap mp
                { s.moduleHeap mp with id := s.nextModuleId } p).id) = moduleIds s := by
            apply List.map_congr_left
            intro p hp
            rw [Function.update_noteq (fun hpq => hmem (by rw [← hpq]; exact hp))]
          have h2 : [mp].map (fun p =>
              (Function.update s.moduleHeap mp
                { s.moduleHeap mp with id := s.nextModuleId } p).id) = [s.nextModuleId] := by
            simp [Function.update_same]
          rw [h1, h2]
          refine List.nodup_append.mpr ⟨hI1.1, List.nodup_singleton _, ?_⟩
          intro x hx hx2
          rw [List.mem_singleton] at hx2
          subst hx2
          obtain ⟨p, hp, hpid⟩ := List.mem_map.mp hx
          exact absurd hpid (ne_of_lt (hI1.2 p hp))
        · intro p hp
          rcases List.mem_append.mp hp with hpl | hpr
          · show (Function.update s.moduleHeap mp
              { s.moduleHeap mp with id := s.nextModuleId } p).id < s.nextModuleId + 1
            rw [Function.update_noteq (fun hpq => hmem (by rw [← hpq]; exact hpl))]
            exact lt_trans (hI1.2 p hpl) (by omega)
          · rw [List.mem_singleton] at hpr
            subst hpr
            show (Function.update s.moduleHeap p
              { s.moduleHeap p with id := s.nextModuleId } p).id < s.nextModuleId + 1
            rw [Function.update_same]
            show s.nextModuleId < s.nextModuleId + 1
            omega
      · intro _
        constructor
        · show (Function.update s.moduleHeap mp
            { s.moduleHeap mp with id := s.nextModuleId } mp).id = s.nextModuleId
          rw [Function.update_same]
        · rfl
      · intro h0
        exact absurd hid (not_lt.mpr h0)
    · have hcol' : ¬∃ p ∈ s.modules, (s.moduleHeap p).id = (s.moduleHeap mp).id := by
        rintro ⟨p, hp, hpe⟩
        exact hcol (not_lt.mp hid) p hp hpe
      refine ⟨_, addModule_manual s mp hmem hid hcol', ?_, ?_, ?_⟩
      · constructor
        · show ((s.modules ++ [mp]).map (fun p => (s.moduleHeap p).id)).Nodup
          rw [List.map_append]
          refine List.nodup_append.mpr ⟨hI1.1, List.nodup_singleton _, ?_⟩
          intro x hx hx2
          simp only [List.map_cons, List.map_nil, List.mem_singleton] at hx2
          subst hx2
          obtain ⟨p, hp, hpid⟩ := List.mem_map.mp hx
          exact hcol' ⟨p, hp, hpid⟩
        · intro p hp
          show (s.moduleHeap p).id <
            (if s.nextModuleId ≤ (s.moduleHeap mp).id
              then (s.moduleHeap mp).id + 1 else s.nextModuleId)
          rcases List.mem_append.mp hp with hpl | hpr
          · have := hI1.2 p hpl
            by_cases hb : s.nextModuleId ≤ (s.moduleHeap mp).id
            · rw [if_pos hb]; omega
            · rw [if_neg hb]; omega
          · rw [List.mem_singleton] at hpr
            subst hpr
            by_cases hb : s.nextModuleId ≤ (s.moduleHeap p).id
            · rw [if_pos hb]; omega
            · rw [if_neg hb]; omega
      · intro h
        exact absurd h hid
      · intro _
        show (if s.nextModuleId ≤ (s.moduleHeap mp).id
            then (s.moduleHeap mp).id + 1 else s.nextModuleId) =
          max s.nextModuleId ((s.moduleHeap mp).id + 1)
        by_cases hb : s.nextModuleId ≤ (s.moduleHeap mp).id
        · rw [if_pos hb, max_eq_right (by omega)]
        · rw [if_neg hb, max_eq_left (by omega)]
  · intro s mp s' hI1 h
    have hmem : mp ∈ s.modules := by
      by_contra hmem
      unfold removeModule at h
      rw [if_neg hmem] at h
      exact Option.noConfusion h
    have hnc : ¬∃ cp ∈ s.cables, (s.cableHeap cp).outputModule = some mp ∨
        (s.cableHeap cp).inputModule = some mp := by
      intro hnc
      unfold removeModule at h
      rw [if_pos hmem] at h
      by_cases hsm : s.smoothModule = some mp
      · rw [if_pos hsm] at h
        dsimp only at h
        rw [if_pos hnc] at h
        exact Option.noConfusion h
      · rw [if_neg hsm] at h
        dsimp only at h
        rw [if_pos hnc] at h
        exact Option.noConfusion h
    rw [removeModule_eq s mp hmem hnc] at h
    obtain rfl : _ = s' := Option.some_inj.mp h
    have hids : ∀ p, (updHeap s.modules (fun _ m => clearExpandersTo mp m)
        s.moduleHeap p).id = (s.moduleHeap p).id := fun p =>
      updHeap_preserve (f := fun _ m => clearExpandersTo mp m)
        (fun (m : ModuleData) => m.id)
        (fun _ m => (clearExpandersTo_spec mp m).2.2.2.2) s.moduleHeap p
    constructor
    · show ((s.modules.erase mp).map (fun p =>
        (updHeap s.modules (fun _ m => clearExpandersTo mp m) s.moduleHeap p).id)).Nodup
      rw [List.map_congr_left (fun p _ => hids p)]
      exact hI1.1.sublist ((List.erase_sublist mp s.modules).map _)
    · intro p hp
      have hp' : p ∈ s.modules := List.mem_of_mem_erase hp
      show (updHeap s.modules (fun _ m => clearExpandersTo mp m) s.moduleHeap p).id <
        s.nextModuleId
      rw [hids p]
      exact hI1.2 p hp'

/-- C3 witness state: two registered modules with ids 3 and 5, nextModuleId 6;
module 7 (id -1) is about to be added. -/
def addState : EngineState :=
  { emptyEngine with
    modules := [1, 2],
    moduleHeap := Function.update (Function.update mh0 1 ⟨3, [], [], [], false, 0, e0, e0⟩)
      2 ⟨5, [], [], [], false, 0, e0, e0⟩,
    nextModuleId := 6 }

/-- C3 witness: the add part evaluated on a concrete state (module 7 has id -1,
the heap default). -/
theorem addModule_removeModule_I1_witness :
    ∃ s', addModule addState 7 = some s' ∧ I1 s' ∧
      ((addState.moduleHeap 7).id < 0 →
        (s'.moduleHeap 7).id = addState.nextModuleId ∧
        s'.nextModuleId = addState.nextModuleId + 1) ∧
      (0 ≤ (addState.moduleHeap 7).id →
        s'.nextModuleId = max addState.nextModuleId ((addState.moduleHeap 7).id + 1)) :=
  addModule_removeModule_I1.1 addState 7 (by exact ⟨by decide, by decide⟩)
    (by decide) (by decide)

/-! Claim C5: addCable preconditions, effect, and preservation of I3. -/

/-- Characterization of the automatic-ID branch of addCable. -/
theorem addCable_auto (s : EngineState) (cp : ℕ)
    (h1 : ¬((s.cableHeap cp).outputModule = none ∨ (s.cableHeap cp).inputModule = none))
    (h2 : ¬∃ w ∈ s.cables, w = cp ∨
      ((s.cableHeap w).inputModule = (s.cableHeap cp).inputModule ∧
        (s.cableHeap w).inputId = (s.cableHeap cp).inputId))
    (h3 : (s.cableHeap cp).id < 0) :
    addCable s cp = some (updateConnected
      { s with cableHeap := Function.update s.cableHeap cp
                 { s.cableHeap cp with id := s.nextCableId },
               nextCableId := s.nextCableId + 1,
               cables := s.cables ++ [cp] }) := by
  unfold addCable
  dsimp only
  rw [if_neg h1, if_neg h2, if_pos h3]

/-- Characterization of the manual-ID branch of addCable. -/
theorem addCable_manual (s : EngineState) (cp : ℕ)
    (h1 : ¬((s.cableHeap cp).outputModule = none ∨ (s.cableHeap cp).inputModule = none))
    (h2 : ¬∃ w ∈ s.cables, w = cp ∨
      ((s.cableHeap w).inputModule = (s.cableHeap cp).inputModule ∧
        (s.cableHeap w).inputId = (s.cableHeap cp).inputId))
    (h3 : ¬(s.cableHeap cp).id < 0)
    (h4 : ¬∃ w ∈ s.cables, (s.cableHeap w).id = (s.cableHeap cp).id) :
    addCable s cp = some (updateConnected
      { s with nextCableId := if s.nextCableId ≤ (s.cableHeap cp).id
                 then (s.cableHeap cp).id + 1 else s.nextCableId,
               cables := s.cables ++ [cp] }) := by
  unfold addCable
  dsimp only
  rw [if_neg h1, if_neg h2, if_neg h3, if_neg h4]

/-- C5: addCable(c) fails a precondition assert exactly when c has a null
endpoint, c is already present, c's manually-set id collides with an existing
cable's id, or some existing cable already targets the same
(inputModule, inputId); when it returns, c has been appended with an assigned
(or validated) id, and — given I3 beforehand — at most one cable targets any
(inputModule, inputId) pair afterwards. -/
theorem addCable_spec (s : EngineState) (cp : ℕ) (hI3 : I3 s) :
    (addCable s cp = none ↔
      ((s.cableHeap cp).outputModule = none ∨ (s.cableHeap cp).inputModule = none) ∨
      cp ∈ s.cables ∨
      (∃ w ∈ s.cables, (s.cableHeap w).inputModule = (s.cableHeap cp).inputModule ∧
        (s.cableHeap w).inputId = (s.cableHeap cp).inputId) ∨
      (0 ≤ (s.cableHeap cp).id ∧
        ∃ w ∈ s.cables, (s.cableHeap w).id = (s.cableHeap cp).id)) ∧
    (∀ s', addCable s cp = some s' →
      s'.cables = s.cables ++ [cp] ∧
      (s'.cableHeap cp).id =
        (if (s.cableHeap cp).id < 0 then s.nextCableId else (s.cableHeap cp).id) ∧
      I3 s') := by
  by_cases h1 : (s.cableHeap cp).outputModule = none ∨ (s.cableHeap cp).inputModule = none
  · have hnone : addCable s cp = none := by
      unfold addCable
      dsimp only
      rw [if_pos h1]
    refine ⟨⟨fun _ => Or.inl h1, fun _ => hnone⟩, fun s' hs' => ?_⟩
    rw [hnone] at hs'
    exact Option.noConfusion hs'
  · by_cases h2 : ∃ w ∈ s.cables, w = cp ∨
        ((s.cableHeap w).inputModule = (s.cableHeap cp).inputModule ∧
          (s.cableHeap w).inputId = (s.cableHeap cp).inputId)
    · have hnone : addCable s cp = none := by
        unfold addCable
        dsimp only
        rw [if_neg h1, if_pos h2]
      refine ⟨⟨fun _ => ?_, fun _ => hnone⟩, fun s' hs' => ?_⟩
      · obtain ⟨w, hw, hor⟩ := h2
        rcases hor with rfl | hpair
        · exact Or.inr (Or.inl hw)
        · exact Or.inr (Or.inr (Or.inl ⟨w, hw, hpair⟩))
      · rw [hnone] at hs'
        exact Option.noConfusion hs'
    · have hcpnot : cp ∉ s.cables := fun hmem => h2 ⟨cp, hmem, Or.inl rfl⟩
      by_cases h3 : (s.cableHeap cp).id < 0
      · have hsome := addCable_auto s cp h1 h2 h3
        refine ⟨⟨fun hn => ?_, fun hr => ?_⟩, fun s' hs' => ?_⟩
        · rw [hsome] at hn
          exact Option.noConfusion hn
        · exfalso
          rcases hr with h | h | h | h
          · exact h1 h
          · exact h2 ⟨cp, h, Or.inl rfl⟩
          · obtain ⟨w, hw, hp⟩ := h
            exact h2 ⟨w, hw, Or.inr hp⟩
          · exact absurd h3 (not_lt.mpr h.1)
        · rw [hsome] at hs'
          obtain rfl : _ = s' := Option.some_inj.mp hs'
          refine ⟨rfl, ?_, ?_⟩
          · rw [if_pos h3]
            show (Function.update s.cableHeap cp
              { s.cableHeap cp with id := s.nextCableId } cp).id = s.nextCableId
            rw [Function.update_same]
          · show List.Pairwise _ (s.cables ++ [cp])
            refine List.pairwise_append.mpr ⟨?_, List.pairwise_singleton _ _, ?_⟩
            · refine hI3.imp_of_mem ?_
              intro a b ha hb hr
              show ¬((Function.update s.cableHeap cp
                  { s.cableHeap cp with id := s.nextCableId } a).inputModule =
                (Function.update s.cableHeap cp
                  { s.cableHeap cp with id := s.nextCableId } b).inputModule ∧
                (Function.update s.cableHeap cp
                  { s.cableHeap cp with id := s.nextCableId } a).inputId =
                (Function.update s.cableHeap cp
                  { s.cableHeap cp with id := s.nextCableId } b).inputId)
              rw [Function.update_noteq (fun he => hcpnot (by rw [← he]; exact ha)),
                Function.update_noteq (fun he => hcpnot (by rw [← he]; exact hb))]
              exact hr
            · intro a ha b hb
              rw [List.mem_singleton] at hb
              rw [hb]
              show ¬((Function.update s.cableHeap cp
                  { s.cableHeap cp with id := s.nextCableId } a).inputModule =
                (Function.update s.cableHeap cp
                  { s.cableHeap cp with id := s.nextCableId } cp).inputModule ∧
                (Function.update s.cableHeap cp
                  { s.cableHeap cp with id := s.nextCableId } a).inputId =
                (Function.update s.cableHeap cp
                  { s.cableHeap cp with id := s.nextCableId } cp).inputId)
              rw [Function.update_noteq (fun he => hcpnot (by rw [← he]; exact ha)),
                Function.update_same]
              intro hpair
              exact h2 ⟨a, ha, Or.inr ⟨hpair.1, hpair.2⟩⟩
      · by_cases h4 : ∃ w ∈ s.cables, (s.cableHeap w).id = (s.cableHeap cp).id
        · have hnone : addCable s cp = none := by
            unfold addCable
            dsimp only
            rw [if_neg h1, if_neg h2, if_neg h3, if_pos h4]
          refine ⟨⟨fun _ => Or.inr (Or.inr (Or.inr ⟨not_lt.mp h3, h4⟩)),
            fun _ => hnone⟩, fun s' hs' => ?_⟩
          rw [hnone] at hs'
          exact Option.noConfusion hs'
        · have hsome := addCable_manual s cp h1 h2 h3 h4
          refine ⟨⟨fun hn => ?_, fun hr => ?_⟩, fun s' hs' => ?_⟩
          · rw [hsome] at hn
            exact Option.noConfusion hn
          · exfalso
            rcases hr with h | h | h | h
            · exact h1 h
            · exact h2 ⟨cp, h, Or.inl rfl⟩
            · obtain ⟨w, hw, hp⟩ := h
              exact h2 ⟨w, hw, Or.inr hp⟩
            · exact h4 h.2
          · rw [hsome] at hs'
            obtain rfl : _ = s' := Option.some_inj.mp hs'
            refine ⟨rfl, ?_, ?_⟩
            · rw [if_neg h3]
              rfl
            · show List.Pairwise _ (s.cables ++ [cp])
              refine List.pairwise_append.mpr ⟨?_, List.pairwise_singleton _ _, ?_⟩
              · refine hI3.imp_of_mem ?_
                intro a b _ _ hr
                exact hr
              · intro a ha b hb
                rw [List.mem_singleton] at hb
                rw [hb]
                intro hpair
                exact h2 ⟨a, ha, Or.inr ⟨hpair.1, hpair.2⟩⟩

/-- C5 witness state: one cable (20) into (module 2, input 0); cable 21 with
id -1 into (module 2, input 1) is about to be added. -/
def cableState : EngineState :=
  { emptyEngine with
    modules := [1, 2],
    moduleHeap := Function.update (Function.update mh0 1 ⟨0, [], [], [⟨false, 1⟩, ⟨false, 1⟩], false, 0, e0, e0⟩)
      2 ⟨1, [⟨0⟩], [⟨false, 1⟩, ⟨false, 1⟩], [], false, 0, e0, e0⟩,
    nextModuleId := 2,
    cables := [20],
    cableHeap := Function.update (Function.update ch0 20 ⟨0, some 1, 0, some 2, 0⟩)
      21 ⟨-1, some 1, 1, some 2, 1⟩,
    nextCableId := 1 }

/-- C5 witness: the addCable characterization evaluated on a concrete state. -/
theorem addCable_spec_witness :
    (addCable cableState 21 = none ↔
      ((cableState.cableHeap 21).outputModule = none ∨
        (cableState.cableHeap 21).inputModule = none) ∨
      (21 : ℕ) ∈ cableState.cables ∨
      (∃ w ∈ cableState.cables,
        (cableState.cableHeap w).inputModule = (cableState.cableHeap 21).inputModule ∧
        (cableState.cableHeap w).inputId = (cableState.cableHeap 21).inputId) ∨
      (0 ≤ (cableState.cableHeap 21).id ∧
        ∃ w ∈ cableState.cables,
          (cableState.cableHeap w).id = (cableState.cableHeap 21).id)) ∧
    (∀ s', addCable cableState 21 = some s' →
      s'.cables = cableState.cables ++ [21] ∧
      (s'.cableHeap 21).id =
        (if (cableState.cableHeap 21).id < 0 then cableState.nextCableId
         else (cableState.cableHeap 21).id) ∧
      I3 s') :=
  addCable_spec cableState 21 (by exact List.pairwise_singleton _ _)

/-! Claim C10: updateParamHandle. -/

theorem conflictPass_cons (p : ℕ) (l : List ℕ) (h0 : ℕ → ParamHandleData) (hp : ℕ)
    (mid : ℤ) (pid : ℕ) (ow : Bool) :
    conflictPass (p :: l) h0 hp mid pid ow =
      conflictPass l
        (if p ≠ hp ∧ (h0 p).moduleId = mid ∧ (h0 p).paramId = pid then
          (if ow then Function.update h0 p ((h0 p).reset)
           else Function.update h0 hp ((h0 hp).reset))
         else h0) hp mid pid ow := rfl

theorem conflictPass_false_ne (l : List ℕ) (h0 : ℕ → ParamHandleData) (hp : ℕ)
    (mid : ℤ) (pid : ℕ) (q : ℕ) (hq : q ≠ hp) :
    conflictPass l h0 hp mid pid false q = h0 q := by
  induction l generalizing h0 with
  | nil => rfl
  | cons p l ih =>
    rw [conflictPass_cons]
    by_cases hc : p ≠ hp ∧ (h0 p).moduleId = mid ∧ (h0 p).paramId = pid
    · rw [if_pos hc, if_neg Bool.false_ne_true, ih]
      exact Function.update_noteq hq _ _
    · rw [if_neg hc]
      exact ih h0

theorem conflictPass_false_hp (l : List ℕ) (h0 : ℕ → ParamHandleData) (hp : ℕ)
    (mid : ℤ) (pid : ℕ) :
    conflictPass l h0 hp mid pid false hp =
      if ∃ q ∈ l, q ≠ hp ∧ (h0 q).moduleId = mid ∧ (h0 q).paramId = pid
      then ⟨-1, 0, none⟩ else h0 hp := by
  induction l generalizing h0 with
  | nil =>
    rw [if_neg (by simp)]
    rfl
  | cons p l ih =>
    rw [conflictPass_cons]
    by_cases hc : p ≠ hp ∧ (h0 p).moduleId = mid ∧ (h0 p).paramId = pid
    · rw [if_pos hc, if_neg Bool.false_ne_true, ih]
      have hRHS : ∃ q ∈ p :: l, q ≠ hp ∧ (h0 q).moduleId = mid ∧ (h0 q).paramId = pid :=
        ⟨p, List.mem_cons_self p l, hc⟩
      rw [if_pos hRHS]
      split_ifs with h
      · rfl
      · rw [Function.update_same]
        rfl
    · rw [if_neg hc, ih]
      refine if_congr ⟨fun ⟨q, hql, hx⟩ => ⟨q, List.mem_cons_of_mem p hql, hx⟩,
        fun ⟨q, hqpl, hx⟩ => ?_⟩ rfl rfl
      rcases List.mem_cons.mp hqpl with rfl | hql
      · exact absurd hx hc
      · exact ⟨q, hql, hx⟩

theorem conflictPass_true_hp (l : List ℕ) (h0 : ℕ → ParamHandleData) (hp : ℕ)
    (mid : ℤ) (pid : ℕ) :
    conflictPass l h0 hp mid pid true hp = h0 hp := by
  induction l generalizing h0 with
  | nil => rfl
  | cons p l ih =>
    rw [conflictPass_cons]
    by_cases hc : p ≠ hp ∧ (h0 p).moduleId = mid ∧ (h0 p).paramId = pid
    · rw [if_pos hc, if_pos rfl, ih]
      exact Function.update_noteq (Ne.symm hc.1) _ _
    · rw [if_neg hc]
      exact ih h0

theorem conflictPass_true_not_mem (l : List ℕ) (h0 : ℕ → ParamHandleData) (hp : ℕ)
    (mid : ℤ) (pid : ℕ) (q : ℕ) (hq : q ∉ l) :
    conflictPass l h0 hp mid pid true q = h0 q := by
  revert hq
  induction l generalizing h0 with
  | nil =>
    intro _
    rfl
  | cons p l ih =>
    intro hq
    have hq' : q ∉ l := fun h => hq (List.mem_cons_of_mem _ h)
    have hqp : q ≠ p := fun h => hq (by rw [h]; exact List.mem_cons_self p l)
    rw [conflictPass_cons]
    by_cases hc : p ≠ hp ∧ (h0 p).moduleId = mid ∧ (h0 p).paramId = pid
    · rw [if_pos hc, if_pos rfl, ih _ hq']
      exact Function.update_noteq hqp _ _
    · rw [if_neg hc]
      exact ih h0 hq'

theorem conflictPass_true_mem (l : List ℕ) (h0 : ℕ → ParamHandleData) (hp : ℕ)
    (mid : ℤ) (pid : ℕ) (q : ℕ) (hqhp : q ≠ hp) (hnd : l.Nodup) (hq : q ∈ l) :
    conflictPass l h0 hp mid pid true q =
      (if (h0 q).moduleId = mid ∧ (h0 q).paramId = pid then ⟨-1, 0, none⟩ else h0 q) := by
  revert hnd hq
  induction l generalizing h0 with
  | nil =>
    intro _ hq
    cases hq
  | cons p l ih =>
    intro hnd hq
    rw [conflictPass_cons]
    rcases List.mem_cons.mp hq with rfl | hql
    · by_cases hc : q ≠ hp ∧ (h0 q).moduleId = mid ∧ (h0 q).paramId = pid
      · rw [if_pos hc, if_pos rfl,
          conflictPass_true_not_mem l _ hp mid pid q (List.nodup_cons.mp hnd).1,
          Function.update_same, if_pos ⟨hc.2.1, hc.2.2⟩]
        rfl
      · have hm : ¬((h0 q).moduleId = mid ∧ (h0 q).paramId = pid) :=
          fun hmm => hc ⟨hqhp, hmm⟩
        rw [if_neg hc,
          conflictPass_true_not_mem l h0 hp mid pid q (List.nodup_cons.mp hnd).1,
          if_neg hm]
    · have hpq : p ≠ q := fun he => (List.nodup_cons.mp hnd).1 (by rw [he]; exact hql)
      by_cases hc : p ≠ hp ∧ (h0 p).moduleId = mid ∧ (h0 p).paramId = pid
      · rw [if_pos hc, if_pos rfl, ih _ (List.nodup_cons.mp hnd).2 hql,
          Function.update_noteq (Ne.symm hpq)]
      · rw [if_neg hc]
        exact ih h0 (List.nodup_cons.mp hnd).2 hql

theorem rebind_no_match (l : List ℕ) (g : ℕ → ℤ) (tid : ℤ) (acc : Option ℕ)
    (h : ∀ q ∈ l, g q ≠ tid) :
    l.foldl (fun acc p => if g p = tid then some p else acc) acc = acc := by
  revert h
  induction l generalizing acc with
  | nil =>
    intro _
    rfl
  | cons p l ih =>
    intro h
    rw [List.foldl_cons, if_neg (h p (List.mem_cons_self p l))]
    exact ih acc (fun q hq => h q (List.mem_cons_of_mem _ hq))

theorem rebind_stay (l : List ℕ) (g : ℕ → ℤ) (tid : ℤ) (q : ℕ)
    (hall : ∀ a ∈ l, g a = tid → a = q) :
    l.foldl (fun acc p => if g p = tid then some p else acc) (some q) = some q := by
  revert hall
  induction l with
  | nil =>
    intro _
    rfl
  | cons p l ih =>
    intro hall
    rw [List.foldl_cons]
    by_cases hgp : g p = tid
    · rw [if_pos hgp, hall p (List.mem_cons_self p l) hgp]
      exact ih (fun a ha hga => hall a (List.mem_cons_of_mem _ ha) hga)
    · rw [if_neg hgp]
      exact ih (fun a ha hga => hall a (List.mem_cons_of_mem _ ha) hga)

theorem rebind_match (l : List ℕ) (g : ℕ → ℤ) (tid : ℤ) (q : ℕ) (acc : Option ℕ)
    (hq : q ∈ l) (hmatch : g q = tid) (huniq : ∀ a ∈ l, g a = tid → a = q) :
    l.foldl (fun acc p => if g p = tid then some p else acc) acc = some q := by
  revert hq huniq
  induction l generalizing acc with
  | nil =>
    intro hq _
    cases hq
  | cons p l ih =>
    intro hq huniq
    rw [List.foldl_cons]
    rcases List.mem_cons.mp hq with rfl | hql
    · rw [if_pos hmatch]
      exact rebind_stay l g tid q (fun a ha hga => huniq a (List.mem_cons_of_mem _ ha) hga)
    · exact ih _ hql (fun a ha hga => huniq a (List.mem_cons_of_mem _ ha) hga)

theorem uphH1_hp (s : EngineState) (hp : ℕ) (mid : ℤ) (pid : ℕ) :
    uphH1 s hp mid pid hp =
      { s.phHeap hp with moduleId := mid, paramId := pid, module := none } :=
  Function.update_same _ _ _

theorem uphH1_ne (s : EngineState) (hp : ℕ) (mid : ℤ) (pid : ℕ) (q : ℕ) (hq : q ≠ hp) :
    uphH1 s hp mid pid q = s.phHeap q :=
  Function.update_noteq hq _ _

theorem rebindPass_no_match (modules : List ℕ) (mh : ℕ → ModuleData) (tid : ℤ)
    (acc : Option ℕ) (h : ∀ q ∈ modules, (mh q).id ≠ tid) :
    rebindPass modules mh tid acc = acc :=
  rebind_no_match modules (fun q => (mh q).id) tid acc h

theorem rebindPass_match (modules : List ℕ) (mh : ℕ → ModuleData) (tid : ℤ) (q : ℕ)
    (acc : Option ℕ) (hq : q ∈ modules) (hmatch : (mh q).id = tid)
    (huniq : ∀ a ∈ modules, (mh a).id = tid → a = q) :
    rebindPass modules mh tid acc = some q :=
  rebind_match modules (fun p => (mh p).id) tid q acc hq hmatch huniq

/-- Characterization of updateParamHandle when the handle is absent or mid < 0. -/
theorem updateParamHandle_neg (s : EngineState) (hp : ℕ) (mid : ℤ) (pid : ℕ) (ow : Bool)
    (h : hp ∉ s.paramHandles ∨ mid < 0) :
    updateParamHandle s hp mid pid ow = { s with phHeap := uphH1 s hp mid pid } := by
  have hcond : ¬(hp ∈ s.paramHandles ∧ 0 ≤ (uphH1 s hp mid pid hp).moduleId) := by
    rintro ⟨hin, hge⟩
    rw [uphH1_hp] at hge
    rcases h with h | h
    · exact h hin
    · exact absurd hge (not_le.mpr h)
  unfold updateParamHandle
  dsimp only
  rw [if_neg hcond]

/-- Characterization of updateParamHandle when the handle is registered and
mid ≥ 0. -/
theorem updateParamHandle_pos (s : EngineState) (hp : ℕ) (mid : ℤ) (pid : ℕ) (ow : Bool)
    (hin : hp ∈ s.paramHandles) (hge : 0 ≤ mid) :
    updateParamHandle s hp mid pid ow =
      (let h2 := conflictPass s.paramHandles (uphH1 s hp mid pid) hp mid pid ow
       let newMod := rebindPass s.modules s.moduleHeap ((h2 hp).moduleId) ((h2 hp).module)
       { s with phHeap := Function.update h2 hp { h2 hp with module := newMod } }) := by
  have hcond : hp ∈ s.paramHandles ∧ 0 ≤ (uphH1 s hp mid pid hp).moduleId :=
    ⟨hin, by rw [uphH1_hp]; exact hge⟩
  unfold updateParamHandle
  dsimp only
  rw [if_pos hcond]

/-- Pointwise form of the registered-handle branch of updateParamHandle. -/
theorem uph_pos_at (s : EngineState) (hp : ℕ) (mid : ℤ) (pid : ℕ) (ow : Bool)
    (hin : hp ∈ s.paramHandles) (hge : 0 ≤ mid) (q : ℕ) :
    (updateParamHandle s hp mid pid ow).phHeap q =
      (if q = hp then
        { conflictPass s.paramHandles (uphH1 s hp mid pid) hp mid pid ow hp with
          module := rebindPass s.modules s.moduleHeap
            ((conflictPass s.paramHandles (uphH1 s hp mid pid) hp mid pid ow hp).moduleId)
            ((conflictPass s.paramHandles (uphH1 s hp mid pid) hp mid pid ow hp).module) }
       else conflictPass s.paramHandles (uphH1 s hp mid pid) hp mid pid ow q) := by
  rw [updateParamHandle_pos s hp mid pid ow hin hge]
  dsimp only
  rcases eq_or_ne q hp with rfl | hq
  · rw [if_pos rfl, Function.update_same]
  · rw [if_neg hq, Function.update_noteq hq]

/-- C10 counterexample state: module 1 (id 5) registered; handles 10 and 11
registered, handle 11 already targets (5, 0). -/
def handleState : EngineState :=
  { emptyEngine with
    modules := [1],
    moduleHeap := Function.update mh0 1 ⟨5, [⟨0⟩], [], [], false, 0, e0, e0⟩,
    nextModuleId := 6,
    paramHandles := [10, 11],
    phHeap := Function.update ph0 11 ⟨5, 0, none⟩ }

/-- C10 counterexample: handle 10 is in the handle set, mid = 5 ≥ 0, and module
1 with id 5 is registered, yet after updateParamHandle(10, 5, 0, overwrite :=
false) handle 10 is NOT rebound to the registered module with id 5: the
conflicting handle 11 causes handle 10 itself to be reset, so its cached module
stays none and its moduleId ends up -1, contradicting the claim's assertion
that in this case h.module is rebound to the registered module with id mid. -/
theorem updateParamHandle_cex :
    (10 : ℕ) ∈ handleState.paramHandles ∧ (0 : ℤ) ≤ 5 ∧
    (1 : ℕ) ∈ handleState.modules ∧ (handleState.moduleHeap 1).id = 5 ∧
    ((updateParamHandle handleState 10 5 0 false).phHeap 10).module = none ∧
    ((updateParamHandle handleState 10 5 0 false).phHeap 10).moduleId = -1 := by
  decide

/-- C10 (amended): updateParamHandle(h, mid, pid, overwrite) always first sets
h.moduleId = mid, h.paramId = pid and clears h.module; only when h is already
in the handle set and mid ≥ 0 does it then reset conflicting handles targeting
(mid, pid) — every conflicting existing handle when overwrite is true,
otherwise h itself — and then rebind h.module by looking up h's current
moduleId among the registered modules: when overwrite is true or no conflict
exists, h.module is rebound to the registered module with id mid (none if mid
is not registered); when overwrite is false and a conflict existed, h has been
reset (moduleId -1) and h.module stays null.  For a handle not in the set, or
when mid < 0, nothing else changes and h.module stays null.  (Hypotheses:
duplicate-free handle list, pairwise-distinct and nonnegative module ids —
spec invariant I1.) -/
theorem updateParamHandle_spec (s : EngineState) (hp : ℕ) (mid : ℤ) (pid : ℕ) (ow : Bool)
    (hndP : s.paramHandles.Nodup)
    (hids : ∀ a ∈ s.modules, ∀ b ∈ s.modules, (s.moduleHeap a).id = (s.moduleHeap b).id → a = b)
    (hpos : ∀ q ∈ s.modules, 0 ≤ (s.moduleHeap q).id) :
    let s' := updateParamHandle s hp mid pid ow
    ((hp ∉ s.paramHandles ∨ mid < 0) →
      s'.phHeap hp = { s.phHeap hp with moduleId := mid, paramId := pid, module := none } ∧
      (∀ q, q ≠ hp → s'.phHeap q = s.phHeap q)) ∧
    (hp ∈ s.paramHandles → 0 ≤ mid → ow = true →
      (∀ q ∈ s.paramHandles, q ≠ hp → (s.phHeap q).moduleId = mid →
        (s.phHeap q).paramId = pid → s'.phHeap q = ⟨-1, 0, none⟩) ∧
      (∀ q, q ≠ hp → ¬((s.phHeap q).moduleId = mid ∧ (s.phHeap q).paramId = pid) →
        s'.phHeap q = s.phHeap q) ∧
      (∀ q, q ≠ hp → q ∉ s.paramHandles → s'.phHeap q = s.phHeap q) ∧
      (s'.phHeap hp).moduleId = mid ∧ (s'.phHeap hp).paramId = pid ∧
      (∀ q ∈ s.modules, (s.moduleHeap q).id = mid → (s'.phHeap hp).module = some q) ∧
      ((∀ q ∈ s.modules, (s.moduleHeap q).id ≠ mid) → (s'.phHeap hp).module = none)) ∧
    (hp ∈ s.paramHandles → 0 ≤ mid → ow = false →
      (∃ q ∈ s.paramHandles, q ≠ hp ∧ (s.phHeap q).moduleId = mid ∧
        (s.phHeap q).paramId = pid) →
      s'.phHeap hp = ⟨-1, 0, none⟩ ∧ (∀ q, q ≠ hp → s'.phHeap q = s.phHeap q)) ∧
    (hp ∈ s.paramHandles → 0 ≤ mid → ow = false →
      ¬(∃ q ∈ s.paramHandles, q ≠ hp ∧ (s.phHeap q).moduleId = mid ∧
        (s.phHeap q).paramId = pid) →
      (s'.phHeap hp).moduleId = mid ∧ (s'.phHeap hp).paramId = pid ∧
      (∀ q ∈ s.modules, (s.moduleHeap q).id = mid → (s'.phHeap hp).module = some q) ∧
      ((∀ q ∈ s.modules, (s.moduleHeap q).id ≠ mid) → (s'.phHeap hp).module = none) ∧
      (∀ q, q ≠ hp → s'.phHeap q = s.phHeap q)) := by
  intro s'
  refine ⟨?_, ?_, ?_, ?_⟩
  · intro hneg
    have he := updateParamHandle_neg s hp mid pid ow hneg
    constructor
    · show (updateParamHandle s hp mid pid ow).phHeap hp = _
      rw [he]
      exact uphH1_hp s hp mid pid
    · intro q hq
      show (updateParamHandle s hp mid pid ow).phHeap q = s.phHeap q
      rw [he]
      exact uphH1_ne s hp mid pid q hq
  · intro hin hge how
    subst how
    have hat := uph_pos_at s hp mid pid true hin hge
    have hcp_hp : conflictPass s.paramHandles (uphH1 s hp mid pid) hp mid pid true hp =
        { s.phHeap hp with moduleId := mid, paramId := pid, module := none } :=
      (conflictPass_true_hp _ _ _ _ _).trans (uphH1_hp s hp mid pid)
    refine ⟨?_, ?_, ?_, ?_, ?_, ?_, ?_⟩
    · intro q hq hqn hmid hpid
      show (updateParamHandle s hp mid pid true).phHeap q = _
      rw [hat q, if_neg hqn,
        conflictPass_true_mem s.paramHandles _ hp mid pid q hqn hndP hq,
        uphH1_ne s hp mid pid q hqn, if_pos ⟨hmid, hpid⟩]
    · intro q hq hnm
      show (updateParamHandle s hp mid pid true).phHeap q = s.phHeap q
      rw [hat q, if_neg hq]
      by_cases hqin : q ∈ s.paramHandles
      · rw [conflictPass_true_mem s.paramHandles _ hp mid pid q hq hndP hqin,
          uphH1_ne s hp mid pid q hq, if_neg hnm]
      · rw [conflictPass_true_not_mem s.paramHandles _ hp mid pid q hqin,
          uphH1_ne s hp mid pid q hq]
    · intro q hq hqout
      show (updateParamHandle s hp mid pid true).phHeap q = s.phHeap q
      rw [hat q, if_neg hq,
        conflictPass_true_not_mem s.paramHandles _ hp mid pid q hqout,
        uphH1_ne s hp mid pid q hq]
    · show ((updateParamHandle s hp mid pid true).phHeap hp).moduleId = mid
      rw [hat hp, if_pos rfl, hcp_hp]
    · show ((updateParamHandle s hp mid pid true).phHeap hp).paramId = pid
      rw [hat hp, if_pos rfl, hcp_hp]
    · intro q hqmod hqid
      show ((updateParamHandle s hp mid pid true).phHeap hp).module = some q
      rw [hat hp, if_pos rfl, hcp_hp]
      exact rebindPass_match s.modules s.moduleHeap mid q none hqmod hqid
        (fun a ha hga => hids a ha q hqmod (hga.trans hqid.symm))
    · intro hnone
      show ((updateParamHandle s hp mid pid true).phHeap hp).module = none
      rw [hat hp, if_pos rfl, hcp_hp]
      exact rebindPass_no_match s.modules s.moduleHeap mid none hnone
  · intro hin hge how hconf
    subst how
    have hat := uph_pos_at s hp mid pid false hin hge
    have hconf' : ∃ q ∈ s.paramHandles, q ≠ hp ∧ (uphH1 s hp mid pid q).moduleId = mid ∧
        (uphH1 s hp mid pid q).paramId = pid := by
      obtain ⟨q, hq, hqn, hmid, hpid⟩ := hconf
      refine ⟨q, hq, hqn, ?_, ?_⟩
      · rw [uphH1_ne s hp mid pid q hqn]
        exact hmid
      · rw [uphH1_ne s hp mid pid q hqn]
        exact hpid
    have hcp_hp : conflictPass s.paramHandles (uphH1 s hp mid pid) hp mid pid false hp =
        ⟨-1, 0, none⟩ := by
      rw [conflictPass_false_hp, if_pos hconf']
    constructor
    · show (updateParamHandle s hp mid pid false).phHeap hp = ⟨-1, 0, none⟩
      rw [hat hp, if_pos rfl, hcp_hp]
      have hrb : rebindPass s.modules s.moduleHeap
          ((⟨-1, 0, none⟩ : ParamHandleData).moduleId)
          ((⟨-1, 0, none⟩ : ParamHandleData).module) = none :=
        rebindPass_no_match _ _ _ _ (fun q hq h => by
          have := hpos q hq
          rw [h] at this
          exact absurd this (by norm_num))
      rw [hrb]
    · intro q hq
      show (updateParamHandle s hp mid pid false).phHeap q = s.phHeap q
      rw [hat q, if_neg hq, conflictPass_false_ne s.paramHandles _ hp mid pid q hq,
        uphH1_ne s hp mid pid q hq]
  · intro hin hge how hnoconf
    subst how
    have hat := uph_pos_at s hp mid pid false hin hge
    have hnoconf' : ¬∃ q ∈ s.paramHandles, q ≠ hp ∧ (uphH1 s hp mid pid q).moduleId = mid ∧
        (uphH1 s hp mid pid q).paramId = pid := by
      rintro ⟨q, hq, hqn, hmid, hpid⟩
      rw [uphH1_ne s hp mid pid q hqn] at hmid hpid
      exact hnoconf ⟨q, hq, hqn, hmid, hpid⟩
    have hcp_hp : conflictPass s.paramHandles (uphH1 s hp mid pid) hp mid pid false hp =
        { s.phHeap hp with moduleId := mid, paramId := pid, module := none } := by
      rw [conflictPass_false_hp, if_neg hnoconf']
      exact uphH1_hp s hp mid pid
    refine ⟨?_, ?_, ?_, ?_, ?_⟩
    · show ((updateParamHandle s hp mid pid false).phHeap hp).moduleId = mid
      rw [hat hp, if_pos rfl, hcp_hp]
    · show ((updateParamHandle s hp mid pid false).phHeap hp).paramId = pid
      rw [hat hp, if_pos rfl, hcp_hp]
    · intro q hqmod hqid
      show ((updateParamHandle s hp mid pid false).phHeap hp).module = some q
      rw [hat hp, if_pos rfl, hcp_hp]
      exact rebindPass_match s.modules s.moduleHeap mid q none hqmod hqid
        (fun a ha hga => hids a ha q hqmod (hga.trans hqid.symm))
    · intro hnone
      show ((updateParamHandle s hp mid pid false).phHeap hp).module = none
      rw [hat hp, if_pos rfl, hcp_hp]
      exact rebindPass_no_match s.modules s.moduleHeap mid none hnone
    · intro q hq
      show (updateParamHandle s hp mid pid false).phHeap q = s.phHeap q
      rw [hat q, if_neg hq, conflictPass_false_ne s.paramHandles _ hp mid pid q hq,
        uphH1_ne s hp mid pid q hq]

/-- C10 witness: the amended characterization evaluated on the concrete state
used for the counterexample (witnessing in particular the overwrite = true
rebinding and the overwrite = false reset). -/
theorem updateParamHandle_spec_witness :
    let s' := updateParamHandle handleState 10 5 0 false
    (((10 : ℕ) ∉ handleState.paramHandles ∨ (5 : ℤ) < 0) →
      s'.phHeap 10 = { handleState.phHeap 10 with moduleId := 5, paramId := 0, module := none } ∧
      (∀ q, q ≠ 10 → s'.phHeap q = handleState.phHeap q)) ∧
    ((10 : ℕ) ∈ handleState.paramHandles → (0 : ℤ) ≤ 5 → false = true →
      (∀ q ∈ handleState.paramHandles, q ≠ 10 → (handleState.phHeap q).moduleId = 5 →
        (handleState.phHeap q).paramId = 0 → s'.phHeap q = ⟨-1, 0, none⟩) ∧
      (∀ q, q ≠ 10 → ¬((handleState.phHeap q).moduleId = 5 ∧ (handleState.phHeap q).paramId = 0) →
        s'.phHeap q = handleState.phHeap q) ∧
      (∀ q, q ≠ 10 → q ∉ handleState.paramHandles → s'.phHeap q = handleState.phHeap q) ∧
      (s'.phHeap 10).moduleId = 5 ∧ (s'.phHeap 10).paramId = 0 ∧
      (∀ q ∈ handleState.modules, (handleState.moduleHeap q).id = 5 →
        (s'.phHeap 10).module = some q) ∧
      ((∀ q ∈ handleState.modules, (handleState.moduleHeap q).id ≠ 5) →
        (s'.phHeap 10).module = none)) ∧
    ((10 : ℕ) ∈ handleState.paramHandles → (0 : ℤ) ≤ 5 → false = false →
      (∃ q ∈ handleState.paramHandles, q ≠ 10 ∧ (handleState.phHeap q).moduleId = 5 ∧
        (handleState.phHeap q).paramId = 0) →
      s'.phHeap 10 = ⟨-1, 0, none⟩ ∧
      (∀ q, q ≠ 10 → s'.phHeap q = handleState.phHeap q)) ∧
    ((10 : ℕ) ∈ handleState.paramHandles → (0 : ℤ) ≤ 5 → false = false →
      ¬(∃ q ∈ handleState.paramHandles, q ≠ 10 ∧ (handleState.phHeap q).moduleId = 5 ∧
        (handleState.phHeap q).paramId = 0) →
      (s'.phHeap 10).moduleId = 5 ∧ (s'.phHeap 10).paramId = 0 ∧
      (∀ q ∈ handleState.modules, (handleState.moduleHeap q).id = 5 →
        (s'.phHeap 10).module = some q) ∧
      ((∀ q ∈ handleState.modules, (handleState.moduleHeap q).id ≠ 5) →
        (s'.phHeap 10).module = none) ∧
      (∀ q, q ≠ 10 → s'.phHeap q = handleState.phHeap q)) :=
  updateParamHandle_spec handleState 10 5 0 false (by decide) (by decide) (by decide)

/-- C4 witness state: param 0 of module 1 is being smoothed towards 7; a new
smooth target is about to be installed on param 1 of module 2. -/
def smoothSwitchState : EngineState :=
  { emptyEngine with
    modules := [1, 2],
    moduleHeap := Function.update (Function.update mh0 1
      ⟨0, [⟨2⟩], [], [], false, 0, e0, e0⟩)
      2 ⟨1, [⟨0⟩, ⟨3⟩], [], [], false, 0, e0, e0⟩,
    nextModuleId := 2,
    smoothModule := some 1, smoothParamId := 0, smoothValue := 7 }

/-- C4 witness: the setSmoothParam/getSmoothParam characterization evaluated on
a concrete state. -/
theorem setSmoothParam_spec_witness :
    let s' := setSmoothParam smoothSwitchState 2 1 9
    s'.smoothModule = some 2 ∧ s'.smoothParamId = 1 ∧ s'.smoothValue = 9 ∧
    getSmoothParam s' 2 1 = 9 ∧
    (∀ q i, ¬(q = 2 ∧ i = 1) → getSmoothParam s' q i = getParam s' q i) ∧
    (∀ m0, smoothSwitchState.smoothModule = some m0 →
      ¬(m0 = 2 ∧ smoothSwitchState.smoothParamId = 1) →
      smoothSwitchState.smoothParamId < (smoothSwitchState.moduleHeap m0).params.length →
      getParam s' m0 smoothSwitchState.smoothParamId = smoothSwitchState.smoothValue) :=
  setSmoothParam_spec smoothSwitchState 2 1 9

end Rack
